import Mathlib

/-!
Verification development for the cronbake library (TypeScript).

This file shallowly embeds the cron expression parser (`src/lib/parser.ts`),
the job lifecycle state machine (`src/lib/cron.ts`) and the job registry
(`src/lib/baker.ts`) into Lean, and proves or refutes the frozen claims
about them.

Strings are modelled as `List Char`; JavaScript numbers that can be `NaN`
(the result of `parseInt`) are modelled by the inductive `JSNum`.
JavaScript `Date` values are modelled at one-second granularity by the
`DateTime` structure, with `DateTime.succ`/`DateTime.pred` implementing the
Gregorian-calendar normalization that `setSeconds(getSeconds() ± 1)`
performs.  Computations that can throw (`undefined.includes`) or diverge
(a `for` loop whose step is `<= 0`) return a `PResult`.
-/

/-- A JavaScript number as produced by `parseInt`: either an integer or `NaN`. -/
inductive JSNum where
  | int (n : Int)
  | nan
deriving DecidableEq, Repr

/-- Result of a JavaScript computation: a value, a thrown exception, or divergence. -/
inductive PResult (α : Type) where
  | ok (val : α)
  | thrown
  | hang
deriving DecidableEq, Repr

/-- Sequencing of `PResult` computations (exception/divergence propagate). -/
def pbind {α β : Type} : PResult α → (α → PResult β) → PResult β
  | .ok a, f => f a
  | .thrown, _ => .thrown
  | .hang, _ => .hang

/-- Shorthand: the character list of a string literal. -/
def strL (s : String) : List Char := s.toList

/-- JavaScript `String.prototype.split(sep)` on character lists (empty pieces kept). -/
def jsSplit (sep : Char) : List Char → List (List Char)
  | [] => [[]]
  | c :: rest =>
    if c = sep then [] :: jsSplit sep rest
    else
      match jsSplit sep rest with
      | [] => [[c]]
      | f :: fs => (c :: f) :: fs

/-- Leading decimal digits of a character list. -/
def takeDigits (s : List Char) : List Char := s.takeWhile (fun c => c.isDigit)

/-- Value of a list of decimal digits. -/
def digitsToNat (ds : List Char) : Nat :=
  ds.foldl (fun a c => a * 10 + (c.toNat - 48)) 0

/-- JavaScript `parseInt` (radix 10): skip leading spaces, optional sign,
then the leading run of digits; `NaN` if there is no leading digit. -/
def parseIntJS (s : List Char) : JSNum :=
  let s := s.dropWhile (fun c => c = ' ')
  match s with
  | '-' :: rest =>
    let ds := takeDigits rest
    if ds = [] then .nan else .int (-(digitsToNat ds : Int))
  | '+' :: rest =>
    let ds := takeDigits rest
    if ds = [] then .nan else .int (digitsToNat ds)
  | _ =>
    let ds := takeDigits s
    if ds = [] then .nan else .int (digitsToNat ds)

/-- Iterations of the JS loop `for (i = a; i <= b; i += s)` collecting `i`.
The fuel `(b + 1 - a).toNat` is exact when `1 ≤ s`, which is the only case
in which this function is used (the `s ≤ 0` case of such a loop diverges
and is modelled by `PResult.hang` in `jsLoop`). -/
def loopFromAux : Nat → Int → Int → Int → List Int
  | 0, _, _, _ => []
  | n + 1, a, b, s => if b < a then [] else a :: loopFromAux n (a + s) b s

/-- The JS counting loop with positive step, with its exact fuel. -/
def loopFrom (a b s : Int) : List Int := loopFromAux (b + 1 - a).toNat a b s

/-- The loop `for (let i = start; i <= bound; i += step) result.push(i)` of
`parseCronTime`, with JavaScript `NaN` semantics: a `NaN` bound or start makes
the condition false at once; a `NaN` step makes `i` become `NaN` after the
first iteration; a step `≤ 0` with `start ≤ bound` loops forever (`hang`). -/
def jsLoop (start bound step : JSNum) : PResult (List JSNum) :=
  match bound with
  | .nan => .ok []
  | .int b =>
    match start with
    | .nan => .ok []
    | .int a =>
      if b < a then .ok []
      else
        match step with
        | .nan => .ok [.int a]
        | .int s => if s ≤ 0 then .hang else .ok ((loopFrom a b s).map JSNum.int)

/-- `CronParser.getStep`: the part after `/`, or `1` when absent or `NaN`. -/
def getStep (s : List Char) : Int :=
  match (jsSplit '/' s).get? 1 with
  | none => 1
  | some t =>
    match parseIntJS t with
    | .nan => 1
    | .int k => k

/-- `CronParser.parseCronTime`: resolves one field string to its list of values.
Branch order follows the source: `*`, then `-`, then `/`, then `,`, then a
bare token parsed with `parseInt` (a non-numeric token yields `[NaN]`,
not an error). -/
def parseCronTime (s : List Char) (min max : Nat) : PResult (List JSNum) :=
  if s = strL "*" then
    .ok ((loopFrom (min : Int) (max : Int) 1).map JSNum.int)
  else if '-' ∈ s then
    match jsSplit '-' s with
    | p0 :: p1 :: _ => jsLoop (parseIntJS p0) (parseIntJS p1) (.int (getStep s))
    | _ => .ok []
  else if '/' ∈ s then
    match jsSplit '/' s with
    | p0 :: p1 :: _ =>
      jsLoop (if p0 = strL "*" then .int (min : Int) else parseIntJS p0)
        (.int (max : Int)) (parseIntJS p1)
    | _ => .ok []
  else if ',' ∈ s then
    .ok ((jsSplit ',' s).map parseIntJS)
  else
    .ok [parseIntJS s]

/-- One field of `CronParser.parse`: a missing field (fewer than six tokens)
is JavaScript `undefined`, on which `.includes` throws. -/
def parseField (f : Option (List Char)) (min max : Nat) : PResult (List JSNum) :=
  match f with
  | none => .thrown
  | some s => parseCronTime s min max

/-- The parsed per-field value sets (`CronTime` in `src/lib/types.ts`).
In the source the six fields are optional, but `CronParser.parse` always
sets all six; a JS array (even an empty one) is truthy, so the
`cronTime.field && ...` guards of `checkCronTime` never short-circuit. -/
structure CronTime where
  second : List JSNum
  minute : List JSNum
  hour : List JSNum
  dayOfMonth : List JSNum
  month : List JSNum
  dayOfWeek : List JSNum
deriving DecidableEq, Repr

/-- The fixed alias table (`CronParser.aliases`). -/
def aliases : List (List Char × List Char) :=
  [ (strL "@every_second", strL "* * * * * *")
  , (strL "@every_minute", strL "0 * * * * *")
  , (strL "@yearly", strL "0 0 1 1 * *")
  , (strL "@annually", strL "0 0 1 1 * *")
  , (strL "@monthly", strL "0 0 1 * * *")
  , (strL "@weekly", strL "0 0 * * 0 *")
  , (strL "@daily", strL "0 0 * * * *")
  , (strL "@hourly", strL "0 * * * * *") ]

/-- Lookup in the alias table (JS `Map.get` / `Map.has`). -/
def aliasLookup (s : List Char) : Option (List Char) :=
  (aliases.find? (fun p => p.1 = s)).map Prod.snd

/-- Does `hay` start with `needle`? -/
def strStartsWith : List Char → List Char → Bool
  | [], _ => true
  | _ :: _, [] => false
  | n :: ns, h :: hs => if n = h then strStartsWith ns hs else false

/-- JavaScript `String.prototype.includes`: substring containment. -/
def strContains (needle : List Char) : List Char → Bool
  | [] => strStartsWith needle []
  | c :: rest => if strStartsWith needle (c :: rest) then true else strContains needle rest

/-- Interpolation of a possibly-`undefined` string into a JS template literal. -/
def optStr (o : Option (List Char)) : List Char := o.getD (strL "undefined")

/-- `CronParser.parseEveryStr`: rewrite `@every_<value>_<unit>`. -/
def parseEveryStr (s : List Char) : List Char :=
  let pieces := jsSplit '_' s
  let value := optStr (pieces.get? 1)
  let unit := pieces.get? 2
  if unit = some (strL "seconds") then strL "*/" ++ value ++ strL " * * * * *"
  else if unit = some (strL "minutes") then strL "0 */" ++ value ++ strL " * * * *"
  else if unit = some (strL "hours") then strL "0 0 */" ++ value ++ strL " * * *"
  else if unit = some (strL "dayOfMonth") then strL "0 0 0 */" ++ value ++ strL " * *"
  else if unit = some (strL "months") then strL "0 0 0 0 */" ++ value ++ strL " *"
  else if unit = some (strL "dayOfWeek") then strL "0 0 0 0 0 */" ++ value
  else strL "* * * * * *"

/-- `CronParser.parseAtHourStr`: rewrite `@at_<hour>:<minute>`. -/
def parseAtHourStr (s : List Char) : List Char :=
  let time := optStr ((jsSplit '_' s).get? 1)
  let pieces := jsSplit ':' time
  strL "0 " ++ optStr (pieces.get? 1) ++ strL " " ++ optStr (pieces.get? 0) ++ strL " * * *"

/-- The day table of `CronParser.parseOnDayStr` (note: Sunday is 1, not 0). -/
def onDayTable : List (List Char × Nat) :=
  [ (strL "sunday", 1), (strL "monday", 2), (strL "tuesday", 3), (strL "wednesday", 4)
  , (strL "thursday", 5), (strL "friday", 6), (strL "saturday", 7) ]

/-- `CronParser.parseOnDayStr`: rewrite `@on_<day>`. -/
def parseOnDayStr (s : List Char) : List Char :=
  let day := optStr ((jsSplit '_' s).get? 1)
  let n := (onDayTable.find? (fun p => p.1 = day)).map Prod.snd
  strL "0 0 0 * * " ++ (match n with
    | some k => strL (toString k)
    | none => strL "undefined")

/-- `CronParser.parseBetweenStr`: rewrite `@between_<start>_<end>`. -/
def parseBetweenStr (s : List Char) : List Char :=
  let pieces := jsSplit '_' s
  strL "0 0 " ++ optStr (pieces.get? 1) ++ strL "-" ++ optStr (pieces.get? 2) ++ strL " * * *"

/-- `CronParser.parseStr`: alias resolution (exact alias table first, then the
parametrized families by substring test, else the string itself). -/
def parseStr (s : List Char) : List Char :=
  match aliasLookup s with
  | some repl => repl
  | none =>
    if strContains (strL "@every_") s then parseEveryStr s
    else if strContains (strL "@at_") s then parseAtHourStr s
    else if strContains (strL "@on_") s then parseOnDayStr s
    else if strContains (strL "@between_") s then parseBetweenStr s
    else s

/-- `CronParser.parse` applied to an already-resolved expression: split on
spaces and parse the six fields in source order; a missing field throws. -/
def parse0 (resolved : List Char) : PResult CronTime :=
  let fs := jsSplit ' ' resolved
  pbind (parseField (fs.get? 0) 0 59) fun second =>
  pbind (parseField (fs.get? 1) 0 59) fun minute =>
  pbind (parseField (fs.get? 2) 0 23) fun hour =>
  pbind (parseField (fs.get? 3) 1 31) fun dayOfMonth =>
  pbind (parseField (fs.get? 4) 1 12) fun month =>
  pbind (parseField (fs.get? 5) 0 6) fun dayOfWeek =>
  .ok ⟨second, minute, hour, dayOfMonth, month, dayOfWeek⟩

/-- `CronParser.parse`: alias resolution followed by field parsing. -/
def parseExpr (s : List Char) : PResult CronTime := parse0 (parseStr s)

/-- `Cron.isCron` / `Cron.isValid`: `true` when `parse` returns, `false` when
it throws; a diverging parse makes `isCron` itself diverge. -/
def isValidCron (s : List Char) : PResult Bool :=
  match parseExpr s with
  | .ok _ => .ok true
  | .thrown => .ok false
  | .hang => .hang

/-- Gregorian leap-year rule. -/
def isLeapYear (y : Nat) : Bool :=
  (y % 4 = 0 && y % 100 != 0) || y % 400 = 0

/-- Days in a Gregorian month. -/
def daysInMonth (y m : Nat) : Nat :=
  if m = 2 then (if isLeapYear y then 29 else 28)
  else if m = 4 ∨ m = 6 ∨ m = 9 ∨ m = 11 then 30
  else 31

/-- A JavaScript `Date` at one-second granularity (local wall-clock).
`month` is 1–12, i.e. the JS `getMonth() + 1` that `checkCronTime` tests;
`dayOfWeek` is the JS `getDay()` value 0–6, tracked as a counter that
rotates whenever the day advances. -/
structure DateTime where
  year : Nat
  month : Nat
  day : Nat
  hour : Nat
  minute : Nat
  second : Nat
  dayOfWeek : Nat
deriving DecidableEq, Repr

/-- A calendar-consistent `DateTime` (what a real JS `Date` always is). -/
def DateTime.Valid (d : DateTime) : Prop :=
  d.second ≤ 59 ∧ d.minute ≤ 59 ∧ d.hour ≤ 23 ∧
    1 ≤ d.day ∧ d.day ≤ daysInMonth d.year d.month ∧
    1 ≤ d.month ∧ d.month ≤ 12 ∧ d.dayOfWeek ≤ 6

instance : DecidablePred DateTime.Valid := fun d => by
  unfold DateTime.Valid; infer_instance

/-- `date.setSeconds(date.getSeconds() + 1)`: advance one second with
Gregorian rollover. -/
def DateTime.succ (d : DateTime) : DateTime :=
  if d.second < 59 then { d with second := d.second + 1 }
  else if d.minute < 59 then { d with second := 0, minute := d.minute + 1 }
  else if d.hour < 23 then { d with second := 0, minute := 0, hour := d.hour + 1 }
  else if d.day < daysInMonth d.year d.month then
    { d with second := 0, minute := 0, hour := 0, day := d.day + 1,
             dayOfWeek := (d.dayOfWeek + 1) % 7 }
  else if d.month < 12 then
    { d with second := 0, minute := 0, hour := 0, day := 1, month := d.month + 1,
             dayOfWeek := (d.dayOfWeek + 1) % 7 }
  else
    { d with second := 0, minute := 0, hour := 0, day := 1, month := 1,
             year := d.year + 1, dayOfWeek := (d.dayOfWeek + 1) % 7 }

/-- `date.setSeconds(date.getSeconds() - 1)`: go back one second with
Gregorian rollover. -/
def DateTime.pred (d : DateTime) : DateTime :=
  if 0 < d.second then { d with second := d.second - 1 }
  else if 0 < d.minute then { d with second := 59, minute := d.minute - 1 }
  else if 0 < d.hour then { d with second := 59, minute := 59, hour := d.hour - 1 }
  else if 1 < d.day then
    { d with second := 59, minute := 59, hour := 23, day := d.day - 1,
             dayOfWeek := (d.dayOfWeek + 6) % 7 }
  else if 1 < d.month then
    { d with second := 59, minute := 59, hour := 23,
             day := daysInMonth d.year (d.month - 1), month := d.month - 1,
             dayOfWeek := (d.dayOfWeek + 6) % 7 }
  else
    { d with second := 59, minute := 59, hour := 23, day := 31, month := 12,
             year := d.year - 1, dayOfWeek := (d.dayOfWeek + 6) % 7 }

/-- Chronological key: strictly monotone in time over valid `DateTime`s
(bases 13/32 pad the month/day positions past their maxima). -/
def DateTime.key (d : DateTime) : Nat :=
  ((((d.year * 13 + d.month) * 32 + d.day) * 24 + d.hour) * 60 + d.minute) * 60 + d.second

/-- JavaScript `Array.prototype.includes` on the parsed value lists
(SameValueZero equality). -/
def jsIncludes : List JSNum → JSNum → Bool
  | [], _ => false
  | x :: xs, v => if x = v then true else jsIncludes xs v

/-- `CronParser.checkCronTime`: the candidate instant is tested field by field
in source order; the day-of-week test is in the `else if` of the month test,
so it runs only when the month test passed. -/
def checkCronTime (ct : CronTime) (d : DateTime) : Bool :=
  if jsIncludes ct.second (.int (d.second : Int)) = false then false
  else if jsIncludes ct.minute (.int (d.minute : Int)) = false then false
  else if jsIncludes ct.hour (.int (d.hour : Int)) = false then false
  else if jsIncludes ct.dayOfMonth (.int (d.day : Int)) = false then false
  else if jsIncludes ct.month (.int (d.month : Int)) = false then false
  else if jsIncludes ct.dayOfWeek (.int (d.dayOfWeek : Int)) = false then false
  else true

/-- The `while (!check) next.setSeconds(+1)` loop of `getNext`, with an
explicit step budget standing for the (unbounded) iteration count; `none`
means the loop is still running after `fuel` candidates. -/
def searchGo (ct : CronTime) : DateTime → Nat → Option DateTime
  | _, 0 => none
  | c, fuel + 1 => if checkCronTime ct c then some c else searchGo ct c.succ fuel

/-- The backward loop of `getPrevious`. -/
def searchGoB (ct : CronTime) : DateTime → Nat → Option DateTime
  | _, 0 => none
  | c, fuel + 1 => if checkCronTime ct c then some c else searchGoB ct c.pred fuel

/-- `CronParser.getNext` after parsing: start at now (truncated to whole
seconds) plus one second and scan forward one second at a time. -/
def searchNextFuel (ct : CronTime) (now : DateTime) (fuel : Nat) : Option DateTime :=
  searchGo ct now.succ fuel

/-- `CronParser.getPrevious` after parsing: start at now minus one second and
scan backward one second at a time. -/
def searchPrevFuel (ct : CronTime) (now : DateTime) (fuel : Nat) : Option DateTime :=
  searchGoB ct now.pred fuel

/-- Job lifecycle status (`Status` in `src/lib/types.ts`). -/
inductive Status where
  | running
  | stopped
deriving DecidableEq, Repr

/-- Observable state of a `Cron` job (`src/lib/cron.ts`): lifecycle status,
the cached next-occurrence, and the number of times the `onComplete`
(on-dispose) callback has been invoked. -/
structure CronState where
  status : Status
  next : Option DateTime
  completions : Nat
deriving DecidableEq, Repr

/-- `Cron.start`: no-op when already running; otherwise set status to running
and cache a freshly computed next-occurrence (`computedNext` stands for the
`parser.getNext()` result, which is only computed in the non-running branch). -/
def Cron.start (s : CronState) (computedNext : DateTime) : CronState :=
  if s.status = .running then s
  else { s with status := .running, next := some computedNext }

/-- `Cron.stop`: no-op when already stopped; otherwise set status to stopped
(the cached next-occurrence is kept). -/
def Cron.stop (s : CronState) : CronState :=
  if s.status = .stopped then s else { s with status := .stopped }

/-- `Cron.destroy`: `stop()` followed by invoking `onComplete` — there is no
one-shot latch, so every call increments the invocation count. -/
def Cron.destroy (s : CronState) : CronState :=
  let s := Cron.stop s
  { s with completions := s.completions + 1 }

/-- The `Baker` registry (`src/lib/baker.ts`): a name-keyed map of jobs
(keys are unique, as in a JS `Map`). -/
structure BakerState where
  crons : List (String × CronState)
deriving DecidableEq, Repr

/-- JS `Map.get name`: the binding for `name`, if any. -/
def mapGet : List (String × CronState) → String → Option CronState
  | [], _ => none
  | (k, v) :: t, name => if k == name then some v else mapGet t name

/-- JS `Map.delete name`: drop the binding for `name`. -/
def mapDelete : List (String × CronState) → String → List (String × CronState)
  | [], _ => []
  | (k, v) :: t, name => if k == name then t else (k, v) :: mapDelete t name

/-- `Baker.remove`: look the job up; if present, destroy it and delete its
entry. The second component is the final state of the destroyed job (still
observable through outside references and its fired callbacks); `none` when
no job with that name was registered. -/
def Baker.remove (b : BakerState) (name : String) : BakerState × Option CronState :=
  match mapGet b.crons name with
  | some c => (⟨mapDelete b.crons name⟩, some (Cron.destroy c))
  | none => (b, none)

/-- The full range of a field, as the parser produces it for `*`. -/
def wild (a b : Nat) : List JSNum := (loopFrom (a : Int) (b : Int) 1).map JSNum.int
/-- The parsed field sets of the expression `"0 0 0 31 2 *"` (day-of-month
restricted to 31, month restricted to February). -/
def ctFeb31 : CronTime :=
  ⟨[.int 0], [.int 0], [.int 0], [.int 31], [.int 2], wild 0 6⟩
/-- 2024-02-05 00:00:00 (a Monday, day-of-week 1): a valid instant whose
month (February) differs from May. -/
def dFeb : DateTime := ⟨2024, 2, 5, 0, 0, 0, 1⟩

/-- Parsed field sets of `"* * * * 5 *"`: only the month is restricted (to May). -/
def ctMay : CronTime := ⟨wild 0 59, wild 0 59, wild 0 23, wild 1 31, [.int 5], wild 0 6⟩

/-- Parsed field sets of `"* * * * * *"`: every field is its full range. -/
def ctAll : CronTime := ⟨wild 0 59, wild 0 59, wild 0 23, wild 1 31, wild 1 12, wild 0 6⟩

/-- Parsed field sets of `"0 * * * * *"` (both `@hourly` and `@every_minute`). -/
def ctHourly : CronTime := ⟨[.int 0], wild 0 59, wild 0 23, wild 1 31, wild 1 12, wild 0 6⟩

/-- Parsed field sets of `"0 0 * * * *"` (`@daily`). -/
def ctDaily : CronTime := ⟨[.int 0], [.int 0], wild 0 23, wild 1 31, wild 1 12, wild 0 6⟩

/-- 2024-02-05 17:00:00: an instant at five in the afternoon. -/
def dHour17 : DateTime := ⟨2024, 2, 5, 17, 0, 0, 1⟩

/-- 2024-02-05 00:37:00: an instant at minute 37. -/
def dMin37 : DateTime := ⟨2024, 2, 5, 0, 37, 0, 1⟩

/-- Parsed field sets of `"99 * * * * *"`: the second set holds the
out-of-range value 99. -/
def ct99 : CronTime := ⟨[.int 99], wild 0 59, wild 0 23, wild 1 31, wild 1 12, wild 0 6⟩

/-- Parsed field sets of `"@every_5_minutes"`: the second field is `{0}`,
not the full range. -/
def ctEvery5Min : CronTime :=
  ⟨[.int 0], [0, 5, 10, 15, 20, 25, 30, 35, 40, 45, 50, 55].map JSNum.int,
    wild 0 23, wild 1 31, wild 1 12, wild 0 6⟩

/-- A job in the running state with a cached next-occurrence. -/
def cRun : CronState := ⟨.running, some dFeb, 0⟩

/-- A registry holding the single job `"job"`. -/
def bOne : BakerState := ⟨[("job", cRun)]⟩

theorem parseCronTime_test1 :
    parseCronTime (strL "*/5") 0 59 =
      .ok ([0, 5, 10, 15, 20, 25, 30, 35, 40, 45, 50, 55].map JSNum.int) := by
  decide

theorem parseCronTime_test2 :
    parseCronTime (strL "foo") 0 59 = .ok [JSNum.nan] := by decide

theorem jsIncludes_eq_true_iff (l : List JSNum) (v : JSNum) :
    jsIncludes l v = true ↔ v ∈ l := by
  induction l with
  | nil => simp [jsIncludes]
  | cons x xs ih =>
    by_cases h : x = v
    · simp [jsIncludes, h]
    · simp only [jsIncludes, if_neg h, ih, List.mem_cons]
      constructor
      · exact fun hm => Or.inr hm
      · rintro (hv | hm)
        · exact absurd hv.symm h
        · exact hm

theorem checkCronTime_eq_true_iff (ct : CronTime) (d : DateTime) :
    checkCronTime ct d = true ↔
      (jsIncludes ct.second (.int (d.second : Int)) = true ∧
       jsIncludes ct.minute (.int (d.minute : Int)) = true ∧
       jsIncludes ct.hour (.int (d.hour : Int)) = true ∧
       jsIncludes ct.dayOfMonth (.int (d.day : Int)) = true ∧
       jsIncludes ct.month (.int (d.month : Int)) = true ∧
       jsIncludes ct.dayOfWeek (.int (d.dayOfWeek : Int)) = true) := by
  unfold checkCronTime
  split_ifs with h1 h2 h3 h4 h5 h6 <;> simp_all

theorem daysInMonth_le_31 (y m : Nat) : daysInMonth y m ≤ 31 := by
  unfold daysInMonth
  split_ifs <;> omega

theorem daysInMonth_pos (y m : Nat) : 1 ≤ daysInMonth y m := by
  unfold daysInMonth
  split_ifs <;> omega

theorem daysInMonth_feb_le (y : Nat) : daysInMonth y 2 ≤ 29 := by
  unfold daysInMonth
  split_ifs <;> omega

theorem DateTime.valid_succ {d : DateTime} (h : d.Valid) : d.succ.Valid := by
  obtain ⟨h1, h2, h3, h4, h5, h6, h7, h8⟩ := h
  have p1 := daysInMonth_pos d.year (d.month + 1)
  have p2 := daysInMonth_pos (d.year + 1) 1
  unfold DateTime.succ
  unfold DateTime.Valid
  split_ifs with c1 c2 c3 c4 c5 <;> simp_all <;> omega

theorem DateTime.valid_pred {d : DateTime} (h : d.Valid) : d.pred.Valid := by
  obtain ⟨h1, h2, h3, h4, h5, h6, h7, h8⟩ := h
  have p1 := daysInMonth_pos d.year (d.month - 1)
  have p2 : daysInMonth (d.year - 1) 12 = 31 := by unfold daysInMonth; simp
  unfold DateTime.pred
  unfold DateTime.Valid
  split_ifs with c1 c2 c3 c4 c5 <;> simp_all <;> omega

theorem DateTime.key_lt_succ {d : DateTime} (h : d.Valid) : d.key < d.succ.key := by
  obtain ⟨h1, h2, h3, h4, h5, h6, h7, h8⟩ := h
  have hd31 := daysInMonth_le_31 d.year d.month
  unfold DateTime.succ DateTime.key
  split_ifs with c1 c2 c3 c4 c5 <;> simp_all <;> omega

theorem DateTime.valid_iterate {d : DateTime} (h : d.Valid) (k : Nat) :
    (DateTime.succ^[k] d).Valid := by
  induction k with
  | zero => simpa using h
  | succ n ih =>
    rw [Function.iterate_succ_apply']
    exact DateTime.valid_succ ih

theorem DateTime.key_lt_iterate {d : DateTime} (h : d.Valid) (k : Nat) :
    d.key < (DateTime.succ^[k + 1] d).key := by
  induction k with
  | zero => simpa using DateTime.key_lt_succ h
  | succ n ih =>
    rw [Function.iterate_succ_apply']
    exact lt_trans ih (DateTime.key_lt_succ (DateTime.valid_iterate h (n + 1)))

theorem searchGo_eq_some {ct : CronTime} :
    ∀ (fuel : Nat) (c d : DateTime), searchGo ct c fuel = some d →
      ∃ k, d = DateTime.succ^[k] c ∧ checkCronTime ct d = true ∧
        ∀ j, j < k → checkCronTime ct (DateTime.succ^[j] c) = false := by
  intro fuel
  induction fuel with
  | zero => intro c d h; simp [searchGo] at h
  | succ n ih =>
    intro c d h
    unfold searchGo at h
    by_cases hc : checkCronTime ct c = true
    · rw [if_pos hc] at h
      obtain rfl : c = d := by simpa using h
      exact ⟨0, by simp, hc, fun j hj => absurd hj (by omega)⟩
    · have hc' : checkCronTime ct c = false := by simpa using hc
      rw [if_neg (by simp [hc'])] at h
      obtain ⟨k, hd, hck, hprev⟩ := ih c.succ d h
      refine ⟨k + 1, ?_, hck, ?_⟩
      · rw [Function.iterate_succ_apply]; exact hd
      · intro j hj
        cases j with
        | zero => simpa using hc'
        | succ j' =>
          rw [Function.iterate_succ_apply]
          exact hprev j' (by omega)

theorem searchGo_none {ct : CronTime}
    (hnever : ∀ e : DateTime, e.Valid → checkCronTime ct e = false) :
    ∀ (fuel : Nat) (c : DateTime), c.Valid → searchGo ct c fuel = none := by
  intro fuel
  induction fuel with
  | zero => intro c _; simp [searchGo]
  | succ n ih =>
    intro c hc
    unfold searchGo
    rw [if_neg (by simp [hnever c hc])]
    exact ih c.succ (DateTime.valid_succ hc)

theorem searchGoB_none {ct : CronTime}
    (hnever : ∀ e : DateTime, e.Valid → checkCronTime ct e = false) :
    ∀ (fuel : Nat) (c : DateTime), c.Valid → searchGoB ct c fuel = none := by
  intro fuel
  induction fuel with
  | zero => intro c _; simp [searchGoB]
  | succ n ih =>
    intro c hc
    unfold searchGoB
    rw [if_neg (by simp [hnever c hc])]
    exact ih c.pred (DateTime.valid_pred hc)

theorem jsIncludes_singleton (x v : JSNum) : jsIncludes [x] v = true ↔ v = x := by
  unfold jsIncludes
  split_ifs with h
  · simp [h.symm]
  · simp [jsIncludes]
    exact fun hv => h hv.symm

theorem parse_feb31 : parseExpr (strL "0 0 0 31 2 *") = .ok ctFeb31 := by decide

theorem feb31_never_matches {d : DateTime} (h : d.Valid) :
    checkCronTime ctFeb31 d = false := by
  rcases hc : checkCronTime ctFeb31 d with _ | _
  · rfl
  · exfalso
    rw [checkCronTime_eq_true_iff] at hc
    obtain ⟨-, -, -, hdom, hmon, -⟩ := hc
    simp only [ctFeb31] at hdom hmon
    rw [jsIncludes_singleton] at hdom hmon
    have hday : d.day = 31 := by
      have := JSNum.int.inj hdom; omega
    have hmonth : d.month = 2 := by
      have := JSNum.int.inj hmon; omega
    obtain ⟨-, -, -, -, h5, -, -, -⟩ := h
    have := daysInMonth_feb_le d.year
    rw [hmonth] at h5
    omega

theorem jsLoop_ne_thrown (start bound step : JSNum) : jsLoop start bound step ≠ .thrown := by
  cases bound with
  | nan => simp [jsLoop]
  | int b =>
    cases start with
    | nan => simp [jsLoop]
    | int a =>
      simp only [jsLoop]
      split_ifs with h1
      · simp
      · cases step with
        | nan => simp
        | int s => by_cases hs : s ≤ 0 <;> simp [hs]

theorem parseCronTime_ne_thrown (s : List Char) (a b : Nat) :
    parseCronTime s a b ≠ .thrown := by
  unfold parseCronTime
  split_ifs with h1 h2 h3 h4
  · simp
  · cases hsp : jsSplit '-' s with
    | nil => simp
    | cons p0 tail =>
      cases tail with
      | nil => simp
      | cons p1 rest => exact jsLoop_ne_thrown _ _ _
  · cases hsp : jsSplit '/' s with
    | nil => simp
    | cons p0 tail =>
      cases tail with
      | nil => simp
      | cons p1 rest => exact jsLoop_ne_thrown _ _ _
  · simp
  · simp

theorem get?_isSome_of_lt {α : Type} :
    ∀ (l : List α) (i : Nat), i < l.length → ∃ x, l.get? i = some x
  | [], i, h => absurd h (by simp)
  | x :: _, 0, _ => ⟨x, rfl⟩
  | _ :: xs, i + 1, h => get?_isSome_of_lt xs i (by simpa using h)

theorem parse0_ne_thrown (r : List Char) (h : 6 ≤ (jsSplit ' ' r).length) :
    parse0 r ≠ .thrown := by
  obtain ⟨f0, h0⟩ := get?_isSome_of_lt (jsSplit ' ' r) 0 (by omega)
  obtain ⟨f1, h1⟩ := get?_isSome_of_lt (jsSplit ' ' r) 1 (by omega)
  obtain ⟨f2, h2⟩ := get?_isSome_of_lt (jsSplit ' ' r) 2 (by omega)
  obtain ⟨f3, h3⟩ := get?_isSome_of_lt (jsSplit ' ' r) 3 (by omega)
  obtain ⟨f4, h4⟩ := get?_isSome_of_lt (jsSplit ' ' r) 4 (by omega)
  obtain ⟨f5, h5⟩ := get?_isSome_of_lt (jsSplit ' ' r) 5 (by omega)
  simp only [parse0]
  rw [h0, h1, h2, h3, h4, h5]
  simp only [parseField]
  cases hc0 : parseCronTime f0 0 59 with
  | thrown => exact absurd hc0 (parseCronTime_ne_thrown f0 0 59)
  | hang => simp [pbind]
  | ok l0 =>
    simp only [pbind]
    cases hc1 : parseCronTime f1 0 59 with
    | thrown => exact absurd hc1 (parseCronTime_ne_thrown f1 0 59)
    | hang => simp [pbind]
    | ok l1 =>
      simp only [pbind]
      cases hc2 : parseCronTime f2 0 23 with
      | thrown => exact absurd hc2 (parseCronTime_ne_thrown f2 0 23)
      | hang => simp [pbind]
      | ok l2 =>
        simp only [pbind]
        cases hc3 : parseCronTime f3 1 31 with
        | thrown => exact absurd hc3 (parseCronTime_ne_thrown f3 1 31)
        | hang => simp [pbind]
        | ok l3 =>
          simp only [pbind]
          cases hc4 : parseCronTime f4 1 12 with
          | thrown => exact absurd hc4 (parseCronTime_ne_thrown f4 1 12)
          | hang => simp [pbind]
          | ok l4 =>
            simp only [pbind]
            cases hc5 : parseCronTime f5 0 6 with
            | thrown => exact absurd hc5 (parseCronTime_ne_thrown f5 0 6)
            | hang => simp [pbind]
            | ok l5 => simp [pbind]

theorem loopFromAux_mem_one (v b : Int) :
    ∀ (n : Nat) (a : Int), (b + 1 - a).toNat ≤ n →
      (v ∈ loopFromAux n a b 1 ↔ a ≤ v ∧ v ≤ b) := by
  intro n
  induction n with
  | zero =>
    intro a h
    simp only [loopFromAux, List.not_mem_nil, false_iff]
    omega
  | succ m ih =>
    intro a h
    unfold loopFromAux
    split_ifs with hba
    · simp only [List.not_mem_nil, false_iff]
      omega
    · rw [List.mem_cons, ih (a + 1) (by omega)]
      constructor
      · rintro (rfl | ⟨hl, hr⟩) <;> omega
      · rintro ⟨hl, hr⟩
        by_cases hv : v = a
        · exact Or.inl hv
        · exact Or.inr ⟨by omega, hr⟩

theorem loopFrom_mem_one (a b v : Int) : v ∈ loopFrom a b 1 ↔ a ≤ v ∧ v ≤ b :=
  loopFromAux_mem_one v b _ a (le_refl _)

theorem jsSplit_no_sep {sep : Char} : ∀ a : List Char, sep ∉ a → jsSplit sep a = [a] := by
  intro a
  induction a with
  | nil => intro _; rfl
  | cons c t ih =>
    intro h
    have hc : c ≠ sep := fun e => h (by simp [e])
    have ht : sep ∉ t := fun m => h (List.mem_cons_of_mem _ m)
    unfold jsSplit
    rw [if_neg hc, ih ht]

theorem jsSplit_sep_append {sep : Char} :
    ∀ (a rest : List Char), sep ∉ a →
      jsSplit sep (a ++ sep :: rest) = a :: jsSplit sep rest := by
  intro a rest
  induction a with
  | nil =>
    intro _
    simp [jsSplit]
  | cons c t ih =>
    intro h
    have hc : c ≠ sep := fun e => h (by simp [e])
    have ht : sep ∉ t := fun m => h (List.mem_cons_of_mem _ m)
    simp only [List.cons_append]
    conv_lhs => unfold jsSplit
    rw [if_neg hc, ih ht]

theorem jsSplit_every (v u : List Char) (hv : '_' ∉ v) (hu : '_' ∉ u) :
    jsSplit '_' (strL "@every_" ++ (v ++ ('_' :: u))) = [strL "@every", v, u] := by
  have e1 : strL "@every_" = strL "@every" ++ ['_'] := by decide
  rw [e1, List.append_assoc, List.singleton_append,
    jsSplit_sep_append _ _ (by decide), jsSplit_sep_append _ _ hv, jsSplit_no_sep _ hu]

theorem mapGet_none_of_not_mem :
    ∀ (l : List (String × CronState)) (name : String),
      name ∉ l.map Prod.fst → mapGet l name = none := by
  intro l
  induction l with
  | nil => intro _ _; rfl
  | cons p t ih =>
    intro name h
    obtain ⟨k, v⟩ := p
    simp only [List.map_cons, List.mem_cons] at h
    push_neg at h
    obtain ⟨hk, ht⟩ := h
    unfold mapGet
    rw [if_neg (by simpa using fun e => hk e.symm)]
    exact ih name ht

theorem mapGet_mapDelete_self (l : List (String × CronState)) (name : String)
    (h : (l.map Prod.fst).Nodup) : mapGet (mapDelete l name) name = none := by
  induction l with
  | nil => rfl
  | cons p t ih =>
    obtain ⟨k, v⟩ := p
    simp only [List.map_cons, List.nodup_cons] at h
    obtain ⟨hk, ht⟩ := h
    unfold mapDelete
    split_ifs with he
    · have hkn : k = name := by simpa using he
      subst hkn
      exact mapGet_none_of_not_mem t k hk
    · unfold mapGet
      rw [if_neg he]
      exact ih ht

/-- C1 (amended): a candidate instant matches iff its second, minute, hour,
day-of-month, month AND day-of-week are each members of the corresponding
parsed field sets — the day-of-week test sits in the `else` branch of the
month test, so it runs only when the month already matched, and a candidate
whose month is not in the month set never matches. -/
theorem checkCronTime_all_fields_iff (ct : CronTime) (d : DateTime) :
    checkCronTime ct d = true ↔
      (JSNum.int (d.second : Int) ∈ ct.second ∧
       JSNum.int (d.minute : Int) ∈ ct.minute ∧
       JSNum.int (d.hour : Int) ∈ ct.hour ∧
       JSNum.int (d.day : Int) ∈ ct.dayOfMonth ∧
       JSNum.int (d.month : Int) ∈ ct.month ∧
       JSNum.int (d.dayOfWeek : Int) ∈ ct.dayOfWeek) := by
  rw [checkCronTime_eq_true_iff]
  simp only [jsIncludes_eq_true_iff]

/-- C1 (counterexample): for `"* * * * 5 *"` and 2024-02-05 00:00:00, the
second, minute, hour and day-of-month all lie in their sets and the
day-of-week lies in its set, the month (February) does not lie in the month
set {May} — the claim's disjunction says this candidate matches, but
`checkCronTime` rejects it. -/
theorem checkCronTime_month_mismatch_cx :
    parseExpr (strL "* * * * 5 *") = .ok ctMay ∧
    jsIncludes ctMay.second (.int (dFeb.second : Int)) = true ∧
    jsIncludes ctMay.minute (.int (dFeb.minute : Int)) = true ∧
    jsIncludes ctMay.hour (.int (dFeb.hour : Int)) = true ∧
    jsIncludes ctMay.dayOfMonth (.int (dFeb.day : Int)) = true ∧
    jsIncludes ctMay.month (.int (dFeb.month : Int)) = false ∧
    jsIncludes ctMay.dayOfWeek (.int (dFeb.dayOfWeek : Int)) = true ∧
    checkCronTime ctMay dFeb = false := by decide

/-- C2 (counterexample): `"* * * * * foo"` has a field that is a plain word
with no recognized operator, yet `isValid` returns `true` (the word parses
to a `[NaN]` set instead of raising a `MalformedExpression` error). -/
theorem isValid_nonnumeric_cx : isValidCron (strL "* * * * * foo") = .ok true := by
  decide

/-- C2 (amended): `isValid` returns `true` for every fixed alias token, and
field parsing never throws: whenever the resolved expression has at least
six space-separated fields, `parse` does not raise an error (a non-numeric
token only yields a `NaN` set value), so an error arises only from a
missing field. -/
theorem isValid_behavior_amended :
    (∀ p ∈ aliases, isValidCron p.1 = .ok true) ∧
    (∀ s : List Char, 6 ≤ (jsSplit ' ' (parseStr s)).length →
      parseExpr s ≠ .thrown) := by
  constructor
  · decide
  · intro s h
    exact parse0_ne_thrown (parseStr s) h

theorem isValid_behavior_amended_witness :
    ((strL "@daily", strL "0 0 * * * *") ∈ aliases ∧
     isValidCron (strL "@daily") = .ok true) ∧
    (6 ≤ (jsSplit ' ' (parseStr (strL "* * * * * foo"))).length ∧
     parseExpr (strL "* * * * * foo") ≠ PResult.thrown) :=
  ⟨⟨by decide, isValid_behavior_amended.1 (strL "@daily", strL "0 0 * * * *") (by decide)⟩,
   by decide, isValid_behavior_amended.2 (strL "* * * * * foo") (by decide)⟩

/-- C3 (counterexample): for `"0 0 0 31 2 *"` (day-of-month 31 restricted to
February) the one-second-step search finds nothing and raises nothing even
after 126230400 steps (four years of seconds, the spec's suggested safety
horizon): there is no bound and no `NoOccurrenceFound` error in the code;
the loop simply keeps running. -/
theorem search_feb31_cx :
    parseExpr (strL "0 0 0 31 2 *") = .ok ctFeb31 ∧
    searchNextFuel ctFeb31 dFeb 126230400 = none ∧
    searchPrevFuel ctFeb31 dFeb 126230400 = none := by
  refine ⟨parse_feb31, ?_, ?_⟩
  · exact searchGo_none (fun e he => feb31_never_matches he) _ _
      (DateTime.valid_succ (by decide))
  · exact searchGoB_none (fun e he => feb31_never_matches he) _ _
      (DateTime.valid_pred (by decide))

/-- C3 (amended): `getNext`/`getPrevious` impose no safety bound and have no
`NoOccurrenceFound` failure mode: for the never-co-occurring field set of
`"0 0 0 31 2 *"`, the one-second-step search returns no result for ANY
finite step budget, from any valid starting instant — the loop runs
forever. -/
theorem search_unbounded_amended (fuel : Nat) (d : DateTime) (hv : d.Valid) :
    parseExpr (strL "0 0 0 31 2 *") = .ok ctFeb31 ∧
    searchNextFuel ctFeb31 d fuel = none ∧
    searchPrevFuel ctFeb31 d fuel = none := by
  refine ⟨parse_feb31, ?_, ?_⟩
  · exact searchGo_none (fun e he => feb31_never_matches he) fuel d.succ
      (DateTime.valid_succ hv)
  · exact searchGoB_none (fun e he => feb31_never_matches he) fuel d.pred
      (DateTime.valid_pred hv)

theorem search_unbounded_amended_witness :
    dFeb.Valid ∧
      (parseExpr (strL "0 0 0 31 2 *") = .ok ctFeb31 ∧
       searchNextFuel ctFeb31 dFeb 1000 = none ∧
       searchPrevFuel ctFeb31 dFeb 1000 = none) :=
  ⟨by decide, search_unbounded_amended 1000 dFeb (by decide)⟩

/-- C4 (counterexample): parse succeeds on `"99 * * * * *"` although 99 lies
outside the second field's declared range 0–59 (the parsed second set is
exactly {99}), and the range field `"5-3"` parses successfully to the EMPTY
set — parsed sets are neither range-checked nor guaranteed non-empty. -/
theorem parse_out_of_range_cx :
    parseExpr (strL "99 * * * * *") = .ok ct99 ∧
    ct99.second = [JSNum.int 99] ∧
    ¬((99 : Int) ≤ 59) ∧
    parseCronTime (strL "5-3") 0 59 = .ok [] := by decide

/-- C4 (amended): a `*` field parses to exactly the full declared range
`[min, max]`; but no range validation is performed on the other syntaxes, so
a successfully parsed field set can contain out-of-range values (bare `99`
in a 0–59 field) or be empty (the descending range `5-3`). -/
theorem parse_wildcard_range_amended (a b : Nat) (v : Int) :
    parseCronTime (strL "*") a b = .ok (wild a b) ∧
    (JSNum.int v ∈ wild a b ↔ ((a : Int) ≤ v ∧ v ≤ (b : Int))) := by
  constructor
  · simp [parseCronTime, wild]
  · simp only [wild, List.mem_map, JSNum.int.injEq]
    constructor
    · rintro ⟨x, hx, rfl⟩
      exact (loopFrom_mem_one _ _ _).mp hx
    · intro hv
      exact ⟨v, (loopFrom_mem_one _ _ _).mpr hv, rfl⟩

/-- C5 (counterexample): the alias `"@every_5_minutes"` synthesizes
`"0 */5 * * * *"`: the second field is the literal `0`, whose parsed set is
`{0}` — not the full range that the claim says every non-`minutes` field
gets. -/
theorem everyAlias_zero_fill_cx :
    parseEveryStr (strL "@every_5_minutes") = strL "0 */5 * * * *" ∧
    parseExpr (strL "@every_5_minutes") = .ok ctEvery5Min ∧
    ctEvery5Min.second = [JSNum.int 0] ∧
    [JSNum.int 0] ≠ wild 0 59 := by decide

/-- C5 (amended): `"@every_N_units"` places `*/N` in the field matching
`units` and wildcards only the LARGER fields; every smaller field is fixed
to the literal `0` (for `months` this includes day-of-month, and for
`dayOfWeek` it includes month as well). -/
theorem everyAlias_fields_amended (v : List Char) (hv : '_' ∉ v) :
    parseEveryStr (strL "@every_" ++ (v ++ ('_' :: strL "seconds"))) =
      strL "*/" ++ v ++ strL " * * * * *" ∧
    parseEveryStr (strL "@every_" ++ (v ++ ('_' :: strL "minutes"))) =
      strL "0 */" ++ v ++ strL " * * * *" ∧
    parseEveryStr (strL "@every_" ++ (v ++ ('_' :: strL "hours"))) =
      strL "0 0 */" ++ v ++ strL " * * *" ∧
    parseEveryStr (strL "@every_" ++ (v ++ ('_' :: strL "dayOfMonth"))) =
      strL "0 0 0 */" ++ v ++ strL " * *" ∧
    parseEveryStr (strL "@every_" ++ (v ++ ('_' :: strL "months"))) =
      strL "0 0 0 0 */" ++ v ++ strL " *" ∧
    parseEveryStr (strL "@every_" ++ (v ++ ('_' :: strL "dayOfWeek"))) =
      strL "0 0 0 0 0 */" ++ v := by
  refine ⟨?_, ?_, ?_, ?_, ?_, ?_⟩
  · simp only [parseEveryStr]
    rw [jsSplit_every v (strL "seconds") hv (by decide)]
    rfl
  · simp only [parseEveryStr]
    rw [jsSplit_every v (strL "minutes") hv (by decide)]
    rfl
  · simp only [parseEveryStr]
    rw [jsSplit_every v (strL "hours") hv (by decide)]
    rfl
  · simp only [parseEveryStr]
    rw [jsSplit_every v (strL "dayOfMonth") hv (by decide)]
    rfl
  · simp only [parseEveryStr]
    rw [jsSplit_every v (strL "months") hv (by decide)]
    rfl
  · simp only [parseEveryStr]
    rw [jsSplit_every v (strL "dayOfWeek") hv (by decide)]
    rfl

theorem everyAlias_fields_amended_witness :
    ('_' ∉ strL "5") ∧
      (parseEveryStr (strL "@every_" ++ (strL "5" ++ ('_' :: strL "seconds"))) =
        strL "*/" ++ strL "5" ++ strL " * * * * *" ∧
      parseEveryStr (strL "@every_" ++ (strL "5" ++ ('_' :: strL "minutes"))) =
        strL "0 */" ++ strL "5" ++ strL " * * * *" ∧
      parseEveryStr (strL "@every_" ++ (strL "5" ++ ('_' :: strL "hours"))) =
        strL "0 0 */" ++ strL "5" ++ strL " * * *" ∧
      parseEveryStr (strL "@every_" ++ (strL "5" ++ ('_' :: strL "dayOfMonth"))) =
        strL "0 0 0 */" ++ strL "5" ++ strL " * *" ∧
      parseEveryStr (strL "@every_" ++ (strL "5" ++ ('_' :: strL "months"))) =
        strL "0 0 0 0 */" ++ strL "5" ++ strL " *" ∧
      parseEveryStr (strL "@every_" ++ (strL "5" ++ ('_' :: strL "dayOfWeek"))) =
        strL "0 0 0 0 0 */" ++ strL "5") :=
  ⟨by decide, everyAlias_fields_amended (strL "5") (by decide)⟩

/-- C6 (counterexample): two `destroy` calls on the same job invoke the
on-dispose callback twice — the invocation count is one per dispose call,
not one per job as the claim states. -/
theorem dispose_twice_cx :
    (Cron.destroy (Cron.destroy (CronState.mk .stopped none 0))).completions = 2 := by
  decide

/-- C6 (amended): every `destroy` call invokes the on-dispose callback
exactly once more (there is no one-shot latch), while `start` and `stop`
never invoke it; so after n dispose calls the callback has fired n times. -/
theorem dispose_per_call_amended (s : CronState) (n : DateTime) :
    (Cron.destroy s).completions = s.completions + 1 ∧
    (Cron.start s n).completions = s.completions ∧
    (Cron.stop s).completions = s.completions := by
  refine ⟨?_, ?_, ?_⟩ <;>
    simp only [Cron.destroy, Cron.start, Cron.stop] <;>
    split_ifs <;> rfl

/-- C7 (confirmed): when the forward search returns a result, that result is
strictly after "now" (in chronological key order), it matches the parsed
field sets, and it is the first matching instant of the one-second scan that
starts at now (truncated to whole seconds) plus one second: every earlier
candidate of the scan fails to match. -/
theorem getNext_strictly_after (ct : CronTime) (now d : DateTime) (fuel : Nat)
    (hv : now.Valid) (h : searchNextFuel ct now fuel = some d) :
    now.key < d.key ∧ checkCronTime ct d = true ∧
      ∃ k, d = DateTime.succ^[k + 1] now ∧
        ∀ j, j < k → checkCronTime ct (DateTime.succ^[j + 1] now) = false := by
  obtain ⟨k, hd, hck, hprev⟩ := searchGo_eq_some fuel now.succ d h
  have hd' : d = DateTime.succ^[k + 1] now := by
    rw [Function.iterate_succ_apply]
    exact hd
  refine ⟨?_, hck, k, hd', ?_⟩
  · rw [hd']
    exact DateTime.key_lt_iterate hv k
  · intro j hj
    rw [Function.iterate_succ_apply]
    exact hprev j hj

theorem getNext_strictly_after_witness :
    dFeb.Valid ∧ searchNextFuel ctAll dFeb 1 = some dFeb.succ ∧
      (dFeb.key < dFeb.succ.key ∧ checkCronTime ctAll dFeb.succ = true ∧
        ∃ k, dFeb.succ = DateTime.succ^[k + 1] dFeb ∧
          ∀ j, j < k → checkCronTime ctAll (DateTime.succ^[j + 1] dFeb) = false) :=
  ⟨by decide, by decide,
    getNext_strictly_after ctAll dFeb dFeb.succ 1 (by decide) (by decide)⟩

/-- C8 (confirmed): `start` on a job already in the running state returns it
unchanged — in particular the cached next-occurrence is not recomputed or
reset by the second call. -/
theorem start_idempotent (s : CronState) (n : DateTime) (h : s.status = .running) :
    Cron.start s n = s := by
  unfold Cron.start
  rw [if_pos h]

theorem start_idempotent_witness :
    (CronState.mk .running (some dFeb) 0).status = .running ∧
      Cron.start (CronState.mk .running (some dFeb) 0) dHour17 =
        CronState.mk .running (some dFeb) 0 :=
  ⟨rfl, start_idempotent (CronState.mk .running (some dFeb) 0) dHour17 rfl⟩

/-- C9 (confirmed): in the alias table `@hourly` resolves to `"0 * * * * *"`,
exactly the expression of `@every_minute`, so their parsed field sets are
equal (minute is the full range: the schedule fires once per minute, at
second 0 of minute 37 for instance); and `@daily` resolves to
`"0 0 * * * *"`, whose parsed hour field is the full range 0–23, so it also
matches at 17:00:00 — once per hour, not once per day. -/
theorem alias_hourly_daily_facts :
    aliasLookup (strL "@hourly") = some (strL "0 * * * * *") ∧
    aliasLookup (strL "@every_minute") = some (strL "0 * * * * *") ∧
    aliasLookup (strL "@daily") = some (strL "0 0 * * * *") ∧
    parseExpr (strL "@hourly") = .ok ctHourly ∧
    parseExpr (strL "@every_minute") = .ok ctHourly ∧
    parseExpr (strL "@daily") = .ok ctDaily ∧
    ctDaily.hour = wild 0 23 ∧
    checkCronTime ctHourly dMin37 = true ∧
    checkCronTime ctDaily dHour17 = true := by decide

/-- C10 (confirmed): on a registry with unique names, `remove` of a
registered name destroys the job (its status becomes stopped and its
on-dispose callback fires) and then deletes the entry, after which the name
no longer resolves; `remove` of an unregistered name leaves the registry
unchanged. -/
theorem remove_destroys_then_deletes (b : BakerState) (name : String)
    (hnd : (b.crons.map Prod.fst).Nodup) :
    (∀ c, mapGet b.crons name = some c →
       (Baker.remove b name).2 = some (Cron.destroy c) ∧
       (Cron.destroy c).status = .stopped ∧
       (Cron.destroy c).completions = c.completions + 1 ∧
       (Baker.remove b name).1.crons = mapDelete b.crons name ∧
       mapGet (Baker.remove b name).1.crons name = none) ∧
    (mapGet b.crons name = none → Baker.remove b name = (b, none)) := by
  constructor
  · intro c hc
    have hrem : Baker.remove b name = (⟨mapDelete b.crons name⟩, some (Cron.destroy c)) := by
      unfold Baker.remove
      rw [hc]
    refine ⟨by rw [hrem], ?_, ?_, by rw [hrem], ?_⟩
    · simp only [Cron.destroy, Cron.stop]
      split_ifs with h
      · exact h
      · rfl
    · simp only [Cron.destroy, Cron.stop]
      split_ifs <;> rfl
    · rw [hrem]
      exact mapGet_mapDelete_self b.crons name hnd
  · intro hc
    unfold Baker.remove
    rw [hc]

theorem remove_destroys_then_deletes_witness :
    ((bOne.crons.map Prod.fst).Nodup ∧ mapGet bOne.crons "job" = some cRun) ∧
      ((Baker.remove bOne "job").2 = some (Cron.destroy cRun) ∧
       (Cron.destroy cRun).status = .stopped ∧
       (Cron.destroy cRun).completions = cRun.completions + 1 ∧
       (Baker.remove bOne "job").1.crons = mapDelete bOne.crons "job" ∧
       mapGet (Baker.remove bOne "job").1.crons "job" = none) :=
  ⟨⟨by decide, by decide⟩,
    (remove_destroys_then_deletes bOne "job" (by decide)).1 cRun (by decide)⟩
